import Mathlib

/-!
# APB configurator: formal model and verification

The repository under verification is an APB-accessible configuration
register block with a clock-domain-crossing (CDC) readout side.  The
repository's `src/` tree contains only the cocotb test benches
(`test_apb_configurator_cocotb.py`, `test_cdc_cocotb.py`,
`test_runner_pytest.py`); the HDL core itself
(`hdl/apb_configurator.v`, `tb/apb_cdc_wrapper.v`) is referenced by the
test runner but absent.  The definitions below therefore embed the core
as described by the specification (address decode, register store,
bus-slave FSM, CDC synchronizer, reset), each marked
`Modelled from the spec:`, and the theorems settle the spec's testable
properties against that model.
-/

/-- Modelled from the spec: compile-time parameters of the missing
`apb_configurator.v` (§6): data width in bits, number of registers,
base address.  The test runner instantiates
`APB_DATA_WIDTH ∈ {32, 64}`, `NUM_REGS ∈ {16, 8}`. -/
structure Cfg where
  dataWidth : Nat
  numRegs : Nat
  baseAddr : Nat
deriving DecidableEq, Repr

/-- Width of one register in bytes (`WIDTH // 8` in the test bench's
address computation). -/
def Cfg.widthBytes (c : Cfg) : Nat := c.dataWidth / 8

/-- The default configuration exercised by
`test_apb_configurator_cocotb.py`: 32-bit data, 16 registers, base 0. -/
def defaultCfg : Cfg := ⟨32, 16, 0⟩

/-- Modelled from the spec: the register index an address maps to,
`index = (address - BASE_ADDR) / WIDTH_BYTES` (§3).  The HDL decoder is
missing from `src/`. -/
def Cfg.addrIndex (c : Cfg) (a : Nat) : Nat := (a - c.baseAddr) / c.widthBytes

/-- Modelled from the spec: address validity (§3): the address is at or
above the base, the decoded index is below `NUM_REGS`, and the address
is aligned to the register width.  The HDL decoder is missing from
`src/`. -/
def Cfg.addrValid (c : Cfg) (a : Nat) : Bool :=
  decide (c.baseAddr ≤ a) && decide (c.addrIndex a < c.numRegs) &&
    decide ((a - c.baseAddr) % c.widthBytes = 0)

/-- The byte address of register `i`, as computed by `apb_write` in
`test_cdc_cocotb.py`: `addr = BASE + (reg_index * (WIDTH // 8))`. -/
def Cfg.addrOf (c : Cfg) (i : Nat) : Nat := c.baseAddr + i * c.widthBytes

/-- Modelled from the spec: the Register Store (§4.2): an indexed array
of value cells plus one ready bit per cell.  The HDL array is missing
from `src/`. -/
structure Store where
  values : List Nat
  ready : List Bool
deriving DecidableEq, Repr

/-- Modelled from the spec: reset state of the store — every value `0`,
every ready flag `false` (§3). -/
def Store.init (n : Nat) : Store :=
  ⟨List.replicate n 0, List.replicate n false⟩

/-- Modelled from the spec: `write(index, value)` sets both the value
and the ready flag at `index`; out-of-range indices fail silently
(§4.2).  `List.set` is a no-op out of range, matching that contract. -/
def Store.write (s : Store) (i v : Nat) : Store :=
  ⟨s.values.set i v, s.ready.set i true⟩

/-- Modelled from the spec: `read(index) -> value` (§4.2). -/
def Store.read (s : Store) (i : Nat) : Nat := s.values.getD i 0

/-- Modelled from the spec: `is_ready(index) -> bool` (§4.2). -/
def Store.isReady (s : Store) (i : Nat) : Bool := s.ready.getD i false

/-- A bus transaction request: `{address, is_write, write_data?}`
(§3). -/
structure Txn where
  address : Nat
  isWrite : Bool
  writeData : Nat
deriving DecidableEq, Repr

/-- A bus transaction response: `{read_data?, error}` (§3). -/
structure Resp where
  readData : Nat
  error : Bool
deriving DecidableEq, Repr

/-- Modelled from the spec: the effect of one completed bus transaction
(§4.1 `ACCESS` evaluation): a valid write commits the data (truncated
to `DATA_WIDTH` bits) and sets the ready flag; a valid read captures
the stored value; an invalid address asserts `error`, forces read data
to zero, and mutates nothing. -/
def transact (c : Cfg) (s : Store) (t : Txn) : Store × Resp :=
  if c.addrValid t.address then
    if t.isWrite then
      (s.write (c.addrIndex t.address) (t.writeData % 2 ^ c.dataWidth),
        ⟨0, false⟩)
    else
      (s, ⟨s.read (c.addrIndex t.address), false⟩)
  else
    (s, ⟨0, true⟩)

/-- Run a list of bus transactions in order, as the cocotb tests do. -/
def runTxns (c : Cfg) (s : Store) : List Txn → Store
  | [] => s
  | t :: ts => runTxns c (transact c s t).1 ts

/-- Whether transaction `t` is a successful (in-range) write to
register index `i`. -/
def writesTo (c : Cfg) (t : Txn) (i : Nat) : Bool :=
  t.isWrite && c.addrValid t.address && decide (c.addrIndex t.address = i)

/-- The most recent value written to register `i` by the transaction
list, or `v0` if none wrote it — the `shadow_mem` model of
`test_stress_access`. -/
def shadowVal (c : Cfg) (i v0 : Nat) (ts : List Txn) : Nat :=
  ts.foldl (fun acc t => if writesTo c t i then t.writeData else acc) v0

/-! ## Cycle-level bus-slave FSM (§4.1 minimal contract) -/

/-- Modelled from the spec: the bus-slave FSM states `IDLE`, `SETUP`,
`ACCESS` (§4.1).  The HDL FSM is missing from `src/`. -/
inductive FsmState
  | idle
  | setup
  | access
deriving DecidableEq, Repr

/-- Per-cycle bus inputs: `psel`, `penable`, `pwrite`, `paddr`,
`pwdata` (§6). -/
structure BusIn where
  psel : Bool
  penable : Bool
  pwrite : Bool
  paddr : Nat
  pwdata : Nat
deriving DecidableEq, Repr

/-- Per-cycle bus outputs: `pready` (completion pulse), `prdata`,
`pslverr` (§6). -/
structure BusOut where
  pready : Bool
  prdata : Nat
  pslverr : Bool
deriving DecidableEq, Repr

/-- Write-domain core state: FSM state, register store, and the
command latched during `IDLE → SETUP`. -/
structure Core where
  fsm : FsmState
  store : Store
  laddr : Nat
  lwrite : Bool
  lwdata : Nat
deriving DecidableEq, Repr

/-- Modelled from the spec: the core after reset — FSM in `IDLE`,
store cleared (§3, §4.4). -/
def Core.init (c : Cfg) : Core :=
  ⟨.idle, Store.init c.numRegs, 0, false, 0⟩

/-- Modelled from the spec: one write-domain clock edge of the
bus-slave FSM (§4.1, minimal contract — completion on the first
`ACCESS` cycle): `IDLE → SETUP` latches the command when select is
asserted with enable deasserted; `SETUP → ACCESS` unconditionally;
`ACCESS` commits a valid write (or nothing for a read or an invalid
address) and returns to `IDLE`. -/
def coreStep (c : Cfg) (st : Core) (inp : BusIn) : Core :=
  match st.fsm with
  | .idle =>
      if inp.psel && !inp.penable then
        { st with fsm := .setup, laddr := inp.paddr, lwrite := inp.pwrite,
                  lwdata := inp.pwdata }
      else st
  | .setup => { st with fsm := .access }
  | .access =>
      if c.addrValid st.laddr && st.lwrite then
        { st with fsm := .idle,
                  store := st.store.write (c.addrIndex st.laddr)
                    (st.lwdata % 2 ^ c.dataWidth) }
      else { st with fsm := .idle }

/-- Modelled from the spec: the core's outputs as a function of its
state (§4.1, §6): `pready` is asserted exactly on the `ACCESS` cycle;
`pslverr` accompanies completion at an invalid address; `prdata`
carries the stored value on a valid read completion and `0`
otherwise. -/
def coreOut (c : Cfg) (st : Core) : BusOut :=
  { pready := st.fsm == .access,
    prdata :=
      if st.fsm == .access && !st.lwrite && c.addrValid st.laddr then
        st.store.read (c.addrIndex st.laddr)
      else 0,
    pslverr := st.fsm == .access && !(c.addrValid st.laddr) }

/-! ## CDC synchronizer (§4.3) -/

/-- Modelled from the spec: one register's clock-domain crossing
channel (§4.3, §9): the write-domain side holds the value bus `wval`,
the ready bit `wready` and a toggle `wtoggle` flipped on every commit;
the read-domain side resolves the toggle through a two-flop chain
`sync1`/`sync2`, remembers the last resolved level `lastSeen`, and the
snapshot `snapVal`/`snapReady` is the read-domain replica. -/
structure Chan where
  wval : Nat
  wready : Bool
  wtoggle : Bool
  sync1 : Bool
  sync2 : Bool
  lastSeen : Bool
  snapVal : Nat
  snapReady : Bool
deriving DecidableEq, Repr

/-- Modelled from the spec: channel reset state — everything zero and
false (§3, §4.4). -/
def Chan.init : Chan := ⟨0, false, false, false, false, false, 0, false⟩

/-- Modelled from the spec: a write-domain commit of value `v` (§4.3
step 1): the value bus and ready bit are updated and the update-pulse
toggle flips. -/
def Chan.commit (ch : Chan) (v : Nat) : Chan :=
  { ch with wval := v, wready := true, wtoggle := !ch.wtoggle }

/-- Modelled from the spec: one read-domain clock edge (§4.3 steps
2-3): the toggle shifts through the two-flop chain, and when the
resolved level differs from the last observed one the read domain
samples the settled value bus and ready bit into the snapshot. -/
def Chan.tick (ch : Chan) : Chan :=
  { ch with
    sync1 := ch.wtoggle
    sync2 := ch.sync1
    lastSeen := if ch.sync2 != ch.lastSeen then ch.sync2 else ch.lastSeen
    snapVal := if ch.sync2 != ch.lastSeen then ch.wval else ch.snapVal
    snapReady := if ch.sync2 != ch.lastSeen then ch.wready else ch.snapReady }

/-- A channel is quiescent when the toggle has fully propagated and the
snapshot matches the write side — the state between rate-limited bus
writes that §4.3 relies on ("the value must be held stable ... because
writes are bus-turnaround-rate-limited"). -/
def Chan.quiescent (ch : Chan) : Prop :=
  ch.sync1 = ch.wtoggle ∧ ch.sync2 = ch.wtoggle ∧ ch.lastSeen = ch.wtoggle ∧
    ch.snapVal = ch.wval ∧ ch.snapReady = ch.wready

instance (ch : Chan) : Decidable ch.quiescent := by
  unfold Chan.quiescent; infer_instance

/-- An event seen by the CDC layer: a write-domain commit to one
register, or one read-domain clock edge (which ticks every channel
simultaneously).  Arbitrary interleavings of the two cover every
relative clock-speed and phase configuration of the two domains. -/
inductive CdcEvent
  | commit (i : Nat) (v : Nat)
  | readTick
deriving DecidableEq, Repr

/-- The CDC layer: one channel per register. -/
def cdcInit (n : Nat) : List Chan := List.replicate n Chan.init

/-- Modelled from the spec: one CDC event applied to the channel
array — a commit updates the targeted channel, a read-domain edge
ticks all channels. -/
def cdcStep (chans : List Chan) : CdcEvent → List Chan
  | .commit i v => chans.set i ((chans.getD i Chan.init).commit v)
  | .readTick => chans.map Chan.tick

/-- Run a sequence of CDC events. -/
def cdcRun (chans : List Chan) (es : List CdcEvent) : List Chan :=
  es.foldl cdcStep chans

/-- The values committed to register `i` by an event sequence. -/
def committedVals (i : Nat) (es : List CdcEvent) : List Nat :=
  es.filterMap fun e =>
    match e with
    | .commit j v => if j = i then some v else none
    | .readTick => none

/-! ## Full system and reset (§4.4) -/

/-- The whole design: write-domain core plus the read-domain CDC
channel array. -/
structure Sys where
  core : Core
  cdc : List Chan
deriving DecidableEq, Repr

/-- Modelled from the spec: reset clears the Register Store and all
ready flags in both domains (§4.4): values and ready flags of the
store clear to zero/false, CDC snapshot values and ready flags clear
to zero/false, with no partial-reset state observable. -/
def sysReset (c : Cfg) (_s : Sys) : Sys :=
  ⟨Core.init c, cdcInit c.numRegs⟩

/-- Apply a list of bus transactions to the system's write domain. -/
def sysRunTxns (c : Cfg) (s : Sys) (ts : List Txn) : Sys :=
  { s with core := { s.core with store := runTxns c s.core.store ts } }

/-! ## Helper lemmas -/

/-- Decoding the test bench's address of register `i` recovers `i`. -/
theorem Cfg.addrIndex_addrOf (c : Cfg) (i : Nat) (hwb : 0 < c.widthBytes) :
    c.addrIndex (c.addrOf i) = i := by
  simp [Cfg.addrIndex, Cfg.addrOf, Nat.add_sub_cancel_left,
    Nat.mul_div_cancel _ hwb]

/-- The address of an in-range register is valid. -/
theorem Cfg.addrValid_addrOf (c : Cfg) (i : Nat) (hwb : 0 < c.widthBytes)
    (hi : i < c.numRegs) : c.addrValid (c.addrOf i) = true := by
  simp [Cfg.addrValid, Cfg.addrOf, Nat.add_sub_cancel_left, Nat.le_add_right,
    Nat.mul_mod_left, Cfg.addrIndex_addrOf c i hwb]
  simpa [Cfg.addrIndex, Cfg.addrOf, Nat.add_sub_cancel_left,
    Nat.mul_div_cancel _ hwb] using hi

/-- A transaction never changes the number of ready cells. -/
theorem transact_ready_length (c : Cfg) (s : Store) (t : Txn) :
    (transact c s t).1.ready.length = s.ready.length := by
  unfold transact
  rcases h : c.addrValid t.address <;> rcases hw : t.isWrite <;>
    simp [Store.write]

/-- A transaction never changes the number of value cells. -/
theorem transact_values_length (c : Cfg) (s : Store) (t : Txn) :
    (transact c s t).1.values.length = s.values.length := by
  unfold transact
  rcases h : c.addrValid t.address <;> rcases hw : t.isWrite <;>
    simp [Store.write]

/-- Running transactions sets the ready flag of `i` exactly when some
transaction successfully writes `i` (or it was already set). -/
theorem isReady_runTxns (c : Cfg) (ts : List Txn) :
    ∀ (s : Store) (i : Nat), i < s.ready.length →
    (runTxns c s ts).isReady i
      = (s.isReady i || ts.any (fun t => writesTo c t i)) := by
  induction ts with
  | nil => intro s i _; simp [runTxns]
  | cons t ts ih =>
      intro s i hi
      have hlen : i < (transact c s t).1.ready.length := by
        rw [transact_ready_length]; exact hi
      rw [runTxns, ih _ i hlen, List.any_cons]
      have hstep : (transact c s t).1.isReady i
          = (s.isReady i || writesTo c t i) := by
        unfold transact writesTo
        rcases h : c.addrValid t.address <;> rcases hw : t.isWrite <;>
          simp [h, hw]
        rcases hidx : decide (c.addrIndex t.address = i) with _ | _
        · simp at hidx
          simp [Store.write, Store.isReady, List.getD,
            List.getElem?_set_ne hidx]
        · simp at hidx
          subst hidx
          simp [Store.write, Store.isReady, List.getD,
            List.getElem?_set_self', List.getElem?_eq_getElem, hi]
      rw [hstep, Bool.or_assoc]

/-- Running transactions leaves register `i` holding the last value
written to it, or its previous content if nothing wrote it. -/
theorem read_runTxns (c : Cfg) (ts : List Txn) :
    ∀ (s : Store) (i : Nat), i < s.values.length →
    (∀ t ∈ ts, t.writeData < 2 ^ c.dataWidth) →
    (runTxns c s ts).read i = shadowVal c i (s.read i) ts := by
  induction ts with
  | nil => intro s i _ _; simp [runTxns, shadowVal]
  | cons t ts ih =>
      intro s i hi hv
      have hlen : i < (transact c s t).1.values.length := by
        rw [transact_values_length]; exact hi
      have hv' : ∀ u ∈ ts, u.writeData < 2 ^ c.dataWidth :=
        fun u hu => hv u (List.mem_cons_of_mem _ hu)
      rw [runTxns, ih _ i hlen hv']
      have hstep : (transact c s t).1.read i
          = (if writesTo c t i then t.writeData else s.read i) := by
        unfold transact writesTo
        rcases h : c.addrValid t.address <;> rcases hw : t.isWrite <;>
          simp [h, hw]
        rcases hidx : decide (c.addrIndex t.address = i) with _ | _
        · simp at hidx
          simp [Store.write, Store.read, List.getD,
            List.getElem?_set_ne hidx, hidx]
        · simp at hidx
          subst hidx
          simp [Store.write, Store.read, List.getD,
            List.getElem?_set_self', List.getElem?_eq_getElem, hi,
            Nat.mod_eq_of_lt (hv t (List.mem_cons_self t ts))]
      rw [hstep]
      rfl

/-- A read-domain edge on a reset channel changes nothing. -/
theorem Chan.tick_init : Chan.tick Chan.init = Chan.init := by decide

/-- From a quiescent channel, a commit reaches the snapshot after three
read-domain edges, bit-exactly and with the ready bit set. -/
theorem Chan.commit_tick3 (ch : Chan) (v : Nat) (hq : ch.quiescent) :
    ((ch.commit v).tick.tick.tick).snapVal = v ∧
      ((ch.commit v).tick.tick.tick).snapReady = true := by
  obtain ⟨h1, h2, h3, h4, h5⟩ := hq
  cases hw : ch.wtoggle <;>
    simp [Chan.commit, Chan.tick, h1, h2, h3, h4, h5, hw]

/-- `getD` distributes over a read-domain edge on the channel array. -/
theorem getD_map_tick (l : List Chan) (i : Nat) :
    (l.map Chan.tick).getD i Chan.init = Chan.tick (l.getD i Chan.init) := by
  rcases Nat.lt_or_ge i l.length with h | h
  · simp [List.getD, List.getElem?_map, List.getElem?_eq_getElem, h]
  · simp [List.getD, List.getElem?_eq_none_iff.2, h, Chan.tick_init,
      List.getElem?_eq_none_iff.2 (by simpa using h : l.length ≤ i)]

/-- `getD` after `set` at the same in-range position. -/
theorem getD_set_self (l : List Chan) (i : Nat) (ch : Chan)
    (h : i < l.length) : (l.set i ch).getD i Chan.init = ch := by
  simp [List.getD, List.getElem?_set_self', List.getElem?_eq_getElem, h]

/-- `getD` after `set` at a different position. -/
theorem getD_set_of_ne (l : List Chan) (i j : Nat) (ch : Chan)
    (h : i ≠ j) : (l.set i ch).getD j Chan.init = l.getD j Chan.init := by
  simp [List.getD, List.getElem?_set_ne h]

/-- A commit propagates from a quiescent channel of the array to its
snapshot within three read-domain edges. -/
theorem cdc_commit_propagates (chans : List Chan) (i v : Nat)
    (hi : i < chans.length) (hq : (chans.getD i Chan.init).quiescent) :
    ((cdcRun chans [.commit i v, .readTick, .readTick, .readTick]).getD i
        Chan.init).snapVal = v ∧
      ((cdcRun chans [.commit i v, .readTick, .readTick, .readTick]).getD i
        Chan.init).snapReady = true := by
  have hrun : cdcRun chans [.commit i v, .readTick, .readTick, .readTick]
      = (((chans.set i ((chans.getD i Chan.init).commit v)).map
          Chan.tick).map Chan.tick).map Chan.tick := by
    simp [cdcRun, cdcStep]
  rw [hrun, getD_map_tick, getD_map_tick, getD_map_tick,
    getD_set_self _ _ _ hi]
  exact Chan.commit_tick3 _ v hq

/-- `committedVals` over a leading commit event. -/
theorem committedVals_commit_cons (i j v : Nat) (es : List CdcEvent) :
    committedVals i (.commit j v :: es)
      = if j = i then v :: committedVals i es else committedVals i es := by
  simp only [committedVals, List.filterMap_cons]
  split <;> simp_all

/-- `committedVals` ignores read-domain edges. -/
theorem committedVals_readTick_cons (i : Nat) (es : List CdcEvent) :
    committedVals i (.readTick :: es) = committedVals i es := by
  simp [committedVals, List.filterMap_cons]

/-- Trace invariant: after any event sequence, both the write-side value
bus and the read-side snapshot of channel `i` hold either their starting
contents or some value committed to `i` during the run — never anything
else, in particular never a torn mixture of two commits. -/
theorem cdc_no_tear_aux (es : List CdcEvent) :
    ∀ (chans : List Chan) (i : Nat),
      (((cdcRun chans es).getD i Chan.init).wval
          = (chans.getD i Chan.init).wval ∨
        ((cdcRun chans es).getD i Chan.init).wval ∈ committedVals i es) ∧
      (((cdcRun chans es).getD i Chan.init).snapVal
          = (chans.getD i Chan.init).snapVal ∨
        ((cdcRun chans es).getD i Chan.init).snapVal
          = (chans.getD i Chan.init).wval ∨
        ((cdcRun chans es).getD i Chan.init).snapVal ∈ committedVals i es) := by
  induction es with
  | nil => intro chans i; simp [cdcRun, committedVals]
  | cons e es ih =>
      intro chans i
      have hrun : cdcRun chans (e :: es) = cdcRun (cdcStep chans e) es := rfl
      rcases e with ⟨j, v⟩ | _
      · rw [hrun, committedVals_commit_cons]
        rcases Decidable.em (j = i) with hj | hj
        · subst hj
          simp only [if_pos rfl]
          rcases Nat.lt_or_ge j chans.length with hlt | hge
          · have hch0 : (cdcStep chans (.commit j v)).getD j Chan.init
                = (chans.getD j Chan.init).commit v :=
              getD_set_self _ _ _ hlt
            obtain ⟨ihw, ihs⟩ := ih (cdcStep chans (.commit j v)) j
            rw [hch0] at ihw ihs
            constructor
            · rcases ihw with h | h
              · right; rw [h]; simp [Chan.commit]
              · right; exact List.mem_cons_of_mem _ h
            · rcases ihs with h | h | h
              · left; rw [h]; simp [Chan.commit]
              · right; right; rw [h]; simp [Chan.commit]
              · right; right; exact List.mem_cons_of_mem _ h
          · have hch0 : (cdcStep chans (.commit j v)).getD j Chan.init
                = chans.getD j Chan.init := by
              have h1 : (chans.set j ((chans.getD j Chan.init).commit v)).getD j
                  Chan.init = Chan.init :=
                List.getD_eq_default _ _ (by simpa using hge)
              have h2 : chans.getD j Chan.init = Chan.init :=
                List.getD_eq_default _ _ hge
              exact h1.trans h2.symm
            obtain ⟨ihw, ihs⟩ := ih (cdcStep chans (.commit j v)) j
            rw [hch0] at ihw ihs
            constructor
            · rcases ihw with h | h
              · left; exact h
              · right; exact List.mem_cons_of_mem _ h
            · rcases ihs with h | h | h
              · left; exact h
              · right; left; exact h
              · right; right; exact List.mem_cons_of_mem _ h
        · have hch0 : (cdcStep chans (.commit j v)).getD i Chan.init
              = chans.getD i Chan.init :=
            getD_set_of_ne _ _ _ _ hj
          obtain ⟨ihw, ihs⟩ := ih (cdcStep chans (.commit j v)) i
          rw [hch0] at ihw ihs
          rw [if_neg hj]
          exact ⟨ihw, ihs⟩
      · rw [hrun, committedVals_readTick_cons]
        have hch0 : (cdcStep chans .readTick).getD i Chan.init
            = Chan.tick (chans.getD i Chan.init) :=
          getD_map_tick _ _
        obtain ⟨ihw, ihs⟩ := ih (cdcStep chans .readTick) i
        rw [hch0] at ihw ihs
        constructor
        · rcases ihw with h | h
          · left; rw [h]; simp [Chan.tick]
          · right; exact h
        · rcases ihs with h | h | h
          · rw [h]
            simp only [Chan.tick]
            split
            · right; left; rfl
            · left; rfl
          · right; left; rw [h]; simp [Chan.tick]
          · right; right; exact h

/-- Every cell of the freshly reset channel array is `Chan.init`. -/
theorem getD_cdcInit (n i : Nat) :
    (cdcInit n).getD i Chan.init = Chan.init := by
  rcases Nat.lt_or_ge i n with h | h
  · simp [cdcInit, List.getD, List.getElem?_replicate, if_pos h]
  · exact List.getD_eq_default _ _ (by simpa [cdcInit] using h)

/-! ## Claim theorems -/

/-- C1 (write/read round-trip): for every valid register index `i` and
every value `v` representable in `DATA_WIDTH` bits, a bus write of `v`
to the address of register `i` followed by a bus read of the same
address returns `read_data = v` with `error = 0`. -/
theorem writeRead_roundTrip (c : Cfg) (s : Store) (i v : Nat)
    (hwb : 0 < c.widthBytes) (hi : i < c.numRegs)
    (hv : v < 2 ^ c.dataWidth) (hlen : s.values.length = c.numRegs) :
    (transact c (transact c s ⟨c.addrOf i, true, v⟩).1
      ⟨c.addrOf i, false, 0⟩).2 = ⟨v, false⟩ := by
  simp [transact, Cfg.addrValid_addrOf c i hwb hi,
    Cfg.addrIndex_addrOf c i hwb, Store.write, Store.read,
    Nat.mod_eq_of_lt hv, List.getD, List.getElem?_set_self',
    List.getElem?_eq_getElem, hlen ▸ hi]

/-- Witness for C1: the `test_simple_access` scenario — write
`0xAABBCCDD` to register 0 of the default configuration and read it
back. -/
theorem writeRead_roundTrip_witness : 0 < defaultCfg.widthBytes ∧
    0 < defaultCfg.numRegs ∧
    (0xAABBCCDD : Nat) < 2 ^ defaultCfg.dataWidth ∧
    (Store.init 16).values.length = defaultCfg.numRegs ∧
    (transact defaultCfg
        (transact defaultCfg (Store.init 16)
          ⟨defaultCfg.addrOf 0, true, 0xAABBCCDD⟩).1
        ⟨defaultCfg.addrOf 0, false, 0⟩).2 = ⟨0xAABBCCDD, false⟩ :=
  ⟨by decide, by decide, by decide, by decide,
    writeRead_roundTrip defaultCfg (Store.init 16) 0 0xAABBCCDD (by decide)
      (by decide) (by decide) (by decide)⟩

/-- C3 (error signalling iff out of range): a completed transaction
asserts `error` exactly when its address fails the validity rule, and
any transaction at an invalid address returns `read_data = 0`. -/
theorem error_iff_out_of_range (c : Cfg) (s : Store) (t : Txn) :
    ((transact c s t).2.error = true ↔ c.addrValid t.address = false) ∧
      (c.addrValid t.address = false → (transact c s t).2.readData = 0) := by
  unfold transact
  rcases h : c.addrValid t.address <;> rcases hw : t.isWrite <;> simp [h]

/-- Witness for C3: the `test_invalid_read` scenario — a read at
out-of-range address `0x100` errors and returns 0. -/
theorem error_iff_out_of_range_witness :
    ((transact defaultCfg (Store.init 16) ⟨0x100, false, 0⟩).2.error = true ↔
      defaultCfg.addrValid 0x100 = false) ∧
      (defaultCfg.addrValid 0x100 = false →
        (transact defaultCfg (Store.init 16) ⟨0x100, false, 0⟩).2.readData = 0) :=
  error_iff_out_of_range defaultCfg (Store.init 16) ⟨0x100, false, 0⟩

/-- C4 (erroring write atomicity): a write transaction at an
out-of-range address leaves the Register Store completely unchanged —
no value cell and no ready flag is modified. -/
theorem erroring_write_atomic (c : Cfg) (s : Store) (t : Txn)
    (h : c.addrValid t.address = false) : (transact c s t).1 = s := by
  simp [transact, h]

/-- Witness for C4: the failed write of `test_error_access` at address
`0x100` leaves the reset store intact. -/
theorem erroring_write_atomic_witness : defaultCfg.addrValid 0x100 = false ∧
    (transact defaultCfg (Store.init 16) ⟨0x100, true, 0x12345678⟩).1
      = Store.init 16 :=
  ⟨by decide,
    erroring_write_atomic defaultCfg (Store.init 16)
      ⟨0x100, true, 0x12345678⟩ (by decide)⟩

/-- C5 (write independence): for distinct valid indices `i` and `j`, a
bus write to register `i` changes neither the stored value nor the
ready flag of register `j`. -/
theorem write_independence (c : Cfg) (s : Store) (i j v : Nat)
    (hwb : 0 < c.widthBytes) (hi : i < c.numRegs) (hj : j < c.numRegs)
    (hij : i ≠ j) :
    (transact c s ⟨c.addrOf i, true, v⟩).1.read j = s.read j ∧
      (transact c s ⟨c.addrOf i, true, v⟩).1.isReady j = s.isReady j := by
  unfold transact
  rcases h : c.addrValid (c.addrOf i)
  · simp
  · simp [Store.write, Store.read, Store.isReady, List.getD,
      Cfg.addrIndex_addrOf c i hwb, List.getElem?_set_ne hij]

/-- Witness for C5: writing register 0 leaves register 1 untouched. -/
theorem write_independence_witness : 0 < defaultCfg.widthBytes ∧
    0 < defaultCfg.numRegs ∧ 1 < defaultCfg.numRegs ∧ (0 : Nat) ≠ 1 ∧
    ((transact defaultCfg (Store.init 16) ⟨defaultCfg.addrOf 0, true, 5⟩).1.read 1
        = (Store.init 16).read 1 ∧
      (transact defaultCfg (Store.init 16)
          ⟨defaultCfg.addrOf 0, true, 5⟩).1.isReady 1
        = (Store.init 16).isReady 1) :=
  ⟨by decide, by decide, by decide, by decide,
    write_independence defaultCfg (Store.init 16) 0 1 5 (by decide)
      (by decide) (by decide) (by decide)⟩

/-- C6 (reset clears everything): after any sequence of bus writes
followed by a reset, every valid register reads back 0 over the bus,
and both the write-domain and read-domain ready flags (and the
read-domain snapshot value) are cleared. -/
theorem reset_clears_everything (c : Cfg) (s : Sys) (ts : List Txn)
    (i : Nat) (hwb : 0 < c.widthBytes) (hi : i < c.numRegs) :
    (transact c (sysReset c (sysRunTxns c s ts)).core.store
        ⟨c.addrOf i, false, 0⟩).2 = ⟨0, false⟩ ∧
      (sysReset c (sysRunTxns c s ts)).core.store.read i = 0 ∧
      (sysReset c (sysRunTxns c s ts)).core.store.isReady i = false ∧
      ((sysReset c (sysRunTxns c s ts)).cdc.getD i Chan.init).snapVal = 0 ∧
      ((sysReset c (sysRunTxns c s ts)).cdc.getD i Chan.init).snapReady
        = false := by
  have hread : (sysReset c (sysRunTxns c s ts)).core.store.read i = 0 := by
    simp [sysReset, Core.init, Store.init, Store.read, List.getD,
      List.getElem?_replicate, if_pos hi]
  refine ⟨?_, hread, ?_, ?_, ?_⟩
  · simp [transact, Cfg.addrValid_addrOf c i hwb hi,
      Cfg.addrIndex_addrOf c i hwb, hread]
  · simp [sysReset, Core.init, Store.init, Store.isReady, List.getD,
      List.getElem?_replicate, if_pos hi]
  · show ((cdcInit c.numRegs).getD i Chan.init).snapVal = 0
    rw [getD_cdcInit]
    rfl
  · show ((cdcInit c.numRegs).getD i Chan.init).snapReady = false
    rw [getD_cdcInit]
    rfl

/-- Witness for C6: the `test_reset_behavior` scenario — two writes,
then reset, then register 0 is clear in both domains. -/
theorem reset_clears_everything_witness : 0 < defaultCfg.widthBytes ∧
    (0 : Nat) < defaultCfg.numRegs ∧
    ((transact defaultCfg
        (sysReset defaultCfg (sysRunTxns defaultCfg
          ⟨Core.init defaultCfg, cdcInit 16⟩
          [⟨0x00, true, 0xDEADBEEF⟩, ⟨0x04, true, 0xCAFEBABE⟩])).core.store
        ⟨defaultCfg.addrOf 0, false, 0⟩).2 = ⟨0, false⟩ ∧
      (sysReset defaultCfg (sysRunTxns defaultCfg
          ⟨Core.init defaultCfg, cdcInit 16⟩
          [⟨0x00, true, 0xDEADBEEF⟩, ⟨0x04, true, 0xCAFEBABE⟩])).core.store.read
          0 = 0 ∧
      (sysReset defaultCfg (sysRunTxns defaultCfg
          ⟨Core.init defaultCfg, cdcInit 16⟩
          [⟨0x00, true, 0xDEADBEEF⟩, ⟨0x04, true, 0xCAFEBABE⟩])).core.store.isReady
          0 = false ∧
      ((sysReset defaultCfg (sysRunTxns defaultCfg
          ⟨Core.init defaultCfg, cdcInit 16⟩
          [⟨0x00, true, 0xDEADBEEF⟩, ⟨0x04, true, 0xCAFEBABE⟩])).cdc.getD 0
          Chan.init).snapVal = 0 ∧
      ((sysReset defaultCfg (sysRunTxns defaultCfg
          ⟨Core.init defaultCfg, cdcInit 16⟩
          [⟨0x00, true, 0xDEADBEEF⟩, ⟨0x04, true, 0xCAFEBABE⟩])).cdc.getD 0
          Chan.init).snapReady = false) :=
  ⟨by decide, by decide,
    reset_clears_everything defaultCfg ⟨Core.init defaultCfg, cdcInit 16⟩
      [⟨0x00, true, 0xDEADBEEF⟩, ⟨0x04, true, 0xCAFEBABE⟩] 0 (by decide)
      (by decide)⟩

/-- C7 (ready-flag invariant): starting from reset, register `i`'s
write-domain ready flag is set after a transaction sequence exactly
when some transaction in it successfully wrote register `i`; so the
ready bitmask is the indicator of the set of written registers. -/
theorem ready_flag_invariant (c : Cfg) (ts : List Txn) (i : Nat)
    (hi : i < c.numRegs) :
    (runTxns c (Store.init c.numRegs) ts).isReady i
      = ts.any (fun t => writesTo c t i) := by
  have hlen : i < (Store.init c.numRegs).ready.length := by
    simpa [Store.init] using hi
  rw [isReady_runTxns c ts _ i hlen]
  have h0 : (Store.init c.numRegs).isReady i = false := by
    simp [Store.init, Store.isReady, List.getD, List.getElem?_replicate,
      if_pos hi]
  rw [h0, Bool.false_or]

/-- Witness for C7: after a valid write to register 0 and a failed
write at `0x100`, the ready flag of register 0 matches the indicator of
successful writes. -/
theorem ready_flag_invariant_witness : (0 : Nat) < defaultCfg.numRegs ∧
    (runTxns defaultCfg (Store.init defaultCfg.numRegs)
        [⟨0x00, true, 0xAABBCCDD⟩, ⟨0x100, true, 7⟩]).isReady 0
      = List.any [⟨0x00, true, 0xAABBCCDD⟩, ⟨0x100, true, 7⟩]
          (fun t => writesTo defaultCfg t 0) :=
  ⟨by decide,
    ready_flag_invariant defaultCfg
      [⟨0x00, true, 0xAABBCCDD⟩, ⟨0x100, true, 7⟩] 0 (by decide)⟩

/-- C8 (address decoding): an address maps to register index
`(address - BASE_ADDR) / WIDTH_BYTES`, and it is valid exactly when
that (integer) index lies in `[0, NUM_REGS)` and the address is
aligned to the register width; every other address — below the base,
past the last register, or unaligned — is out of range. -/
theorem addr_decode_valid_iff (c : Cfg) (a : Nat) (hwb : 0 < c.widthBytes) :
    (c.addrValid a = true ↔
      (0 ≤ ((a : Int) - c.baseAddr) / (c.widthBytes : Int) ∧
        ((a : Int) - c.baseAddr) / (c.widthBytes : Int) < c.numRegs ∧
        ((a : Int) - c.baseAddr) % (c.widthBytes : Int) = 0)) ∧
      (c.baseAddr ≤ a →
        (c.addrIndex a : Int)
          = ((a : Int) - c.baseAddr) / (c.widthBytes : Int)) := by
  rcases Nat.lt_or_ge a c.baseAddr with hab | hab
  · have hneg : ((a : Int) - c.baseAddr) < 0 := by omega
    have hdiv : ((a : Int) - c.baseAddr) / (c.widthBytes : Int) < 0 :=
      Int.ediv_neg' hneg (by exact_mod_cast hwb)
    constructor
    · constructor
      · intro h
        exfalso
        simp [Cfg.addrValid] at h
        omega
      · rintro ⟨h0, _, _⟩
        omega
    · intro h; omega
  · have hsub : ((a : Int) - c.baseAddr) = ((a - c.baseAddr : Nat) : Int) := by
      omega
    have hdiv : ((a : Int) - c.baseAddr) / (c.widthBytes : Int)
        = (((a - c.baseAddr) / c.widthBytes : Nat) : Int) := by
      rw [hsub, Int.natCast_div]
    have hmod : ((a : Int) - c.baseAddr) % (c.widthBytes : Int)
        = (((a - c.baseAddr) % c.widthBytes : Nat) : Int) := by
      rw [hsub, Int.natCast_mod]
    constructor
    · rw [hdiv, hmod]
      simp only [Cfg.addrValid, Cfg.addrIndex, Bool.and_eq_true,
        decide_eq_true_eq]
      constructor
      · rintro ⟨⟨_, h1⟩, h2⟩
        exact ⟨Int.natCast_nonneg _, by exact_mod_cast h1, by exact_mod_cast h2⟩
      · rintro ⟨h0, h1, h2⟩
        exact ⟨⟨hab, by exact_mod_cast h1⟩, by exact_mod_cast h2⟩
    · intro _
      rw [hdiv]
      simp [Cfg.addrIndex]

/-- Witness for C8: the decode rule evaluated at the out-of-range
address `0x100` of `test_error_access`. -/
theorem addr_decode_valid_iff_witness : 0 < defaultCfg.widthBytes ∧
    ((defaultCfg.addrValid 0x100 = true ↔
      (0 ≤ ((0x100 : Int) - defaultCfg.baseAddr) / (defaultCfg.widthBytes : Int) ∧
        ((0x100 : Int) - defaultCfg.baseAddr) / (defaultCfg.widthBytes : Int)
          < defaultCfg.numRegs ∧
        ((0x100 : Int) - defaultCfg.baseAddr) % (defaultCfg.widthBytes : Int)
          = 0)) ∧
      (defaultCfg.baseAddr ≤ 0x100 →
        (defaultCfg.addrIndex 0x100 : Int)
          = ((0x100 : Int) - defaultCfg.baseAddr)
            / (defaultCfg.widthBytes : Int))) :=
  ⟨by decide, addr_decode_valid_iff defaultCfg 0x100 (by decide)⟩

/-- C9 (completion pulse): `pready` is asserted exactly on the `ACCESS`
state; it can never be asserted on two consecutive clock cycles, so
each transaction completes with a one-cycle pulse; and in the minimal
contract the cycle following the `SETUP` state — the first `ACCESS`
cycle — asserts it. -/
theorem completion_pulse (c : Cfg) (st : Core) (inp : BusIn) :
    ((coreOut c st).pready = true ↔ st.fsm = .access) ∧
      ((coreOut c st).pready = true →
        (coreOut c (coreStep c st inp)).pready = false) ∧
      (st.fsm = .setup → (coreOut c (coreStep c st inp)).pready = true) := by
  refine ⟨by simp [coreOut], ?_, ?_⟩
  · intro h
    have hfsm : st.fsm = .access := by simpa [coreOut] using h
    simp only [coreOut, coreStep, hfsm]
    split <;> simp
  · intro h
    simp [coreOut, coreStep, h]

/-- Witness for C9: a core completing in the `ACCESS` state deasserts
`pready` on the following cycle. -/
theorem completion_pulse_witness :
    ((coreOut defaultCfg ⟨.access, Store.init 16, 0, false, 0⟩).pready = true ↔
      FsmState.access = FsmState.access) ∧
      ((coreOut defaultCfg ⟨.access, Store.init 16, 0, false, 0⟩).pready
          = true →
        (coreOut defaultCfg (coreStep defaultCfg
          ⟨.access, Store.init 16, 0, false, 0⟩
          ⟨false, false, false, 0, 0⟩)).pready = false) ∧
      (FsmState.access = FsmState.setup →
        (coreOut defaultCfg (coreStep defaultCfg
          ⟨.access, Store.init 16, 0, false, 0⟩
          ⟨false, false, false, 0, 0⟩)).pready = true) :=
  completion_pulse defaultCfg ⟨.access, Store.init 16, 0, false, 0⟩
    ⟨false, false, false, 0, 0⟩

/-- C2 (CDC fidelity): first conjunct — under the rate-limited-write
discipline of §4.3 (the channel is quiescent when the commit arrives),
a value committed in the write domain reaches the read-domain snapshot
of its register within three read-domain clock edges, bit-exactly and
with that register's read-domain ready flag set, for every interleaving
of the two domains' clocks (arbitrary interleavings of commit and
read-edge events subsume write-faster, read-faster, and equal-with-
phase-offset configurations).  Second conjunct — over every event
sequence from reset, the snapshot only ever holds `0` or a value that
was actually committed to that register: never a mixture of bits from
two different write-domain updates. -/
theorem cdc_fidelity (n : Nat) :
    (∀ (chans : List Chan) (i v : Nat), i < chans.length →
      (chans.getD i Chan.init).quiescent →
      ((cdcRun chans [.commit i v, .readTick, .readTick, .readTick]).getD i
          Chan.init).snapVal = v ∧
        ((cdcRun chans [.commit i v, .readTick, .readTick, .readTick]).getD i
          Chan.init).snapReady = true) ∧
    (∀ (es : List CdcEvent) (i : Nat),
      ((cdcRun (cdcInit n) es).getD i Chan.init).snapVal = 0 ∨
        ((cdcRun (cdcInit n) es).getD i Chan.init).snapVal
          ∈ committedVals i es) := by
  constructor
  · exact fun chans i v hi hq => cdc_commit_propagates chans i v hi hq
  · intro es i
    obtain ⟨_, hs⟩ := cdc_no_tear_aux es (cdcInit n) i
    rw [getD_cdcInit] at hs
    rcases hs with h | h | h
    · left; simpa [Chan.init] using h
    · left; simpa [Chan.init] using h
    · right; exact h

/-- Witness for C2: committing `171` to register 0 of a two-register
reset CDC array reaches the snapshot after three read edges, and a
partially propagated trace still only shows committed values. -/
theorem cdc_fidelity_witness : 0 < (cdcInit 2).length ∧
    ((cdcInit 2).getD 0 Chan.init).quiescent ∧
    (((cdcRun (cdcInit 2) [.commit 0 171, .readTick, .readTick, .readTick]).getD
        0 Chan.init).snapVal = 171 ∧
      ((cdcRun (cdcInit 2) [.commit 0 171, .readTick, .readTick, .readTick]).getD
        0 Chan.init).snapReady = true) ∧
    (((cdcRun (cdcInit 2) [.commit 0 171, .readTick]).getD 0 Chan.init).snapVal
        = 0 ∨
      ((cdcRun (cdcInit 2) [.commit 0 171, .readTick]).getD 0 Chan.init).snapVal
        ∈ committedVals 0 [.commit 0 171, .readTick]) :=
  ⟨by decide, by decide,
    (cdc_fidelity 2).1 (cdcInit 2) 0 171 (by decide) (by decide),
    (cdc_fidelity 2).2 [.commit 0 171, .readTick] 0⟩

/-- C10 (reads are pure): no read transaction — valid or out of
range — modifies the store; and after any interleaving of reads among
writes from reset, a valid read of register `i` returns the most
recent value written to `i`, or `0` if it was never written. -/
theorem reads_pure_last_write_wins (c : Cfg) :
    (∀ (s : Store) (t : Txn), t.isWrite = false → (transact c s t).1 = s) ∧
    (∀ (ts : List Txn) (i : Nat), i < c.numRegs →
      (∀ t ∈ ts, t.writeData < 2 ^ c.dataWidth) →
      (runTxns c (Store.init c.numRegs) ts).read i = shadowVal c i 0 ts) := by
  constructor
  · intro s t hw
    unfold transact
    rcases h : c.addrValid t.address <;> simp [h, hw]
  · intro ts i hi hv
    have hlen : i < (Store.init c.numRegs).values.length := by
      simpa [Store.init] using hi
    have h0 : (Store.init c.numRegs).read i = 0 := by
      simp [Store.init, Store.read, List.getD, List.getElem?_replicate,
        if_pos hi]
    rw [read_runTxns c ts _ i hlen hv, h0]

/-- Witness for C10: an invalid-address read leaves the store alone,
and after two writes to register 0 and an interleaved read, reading
register 0 yields the later value. -/
theorem reads_pure_last_write_wins_witness :
    ((transact defaultCfg (Store.init 16) ⟨0x00, false, 0⟩).1
        = Store.init 16) ∧
    ((0 : Nat) < defaultCfg.numRegs ∧
      (runTxns defaultCfg (Store.init defaultCfg.numRegs)
          [⟨0x00, true, 17⟩, ⟨0x00, true, 42⟩, ⟨0x04, false, 0⟩]).read 0
        = shadowVal defaultCfg 0 0
            [⟨0x00, true, 17⟩, ⟨0x00, true, 42⟩, ⟨0x04, false, 0⟩]) :=
  ⟨(reads_pure_last_write_wins defaultCfg).1 (Store.init 16)
      ⟨0x00, false, 0⟩ (by decide),
    by decide,
    (reads_pure_last_write_wins defaultCfg).2
      [⟨0x00, true, 17⟩, ⟨0x00, true, 42⟩, ⟨0x04, false, 0⟩] 0
      (by decide) (by decide)⟩
